import Mathlib

/-!
Verification of the sigmabase synchronization core.

This file gives a shallow embedding, over `List Char` / `String`, of the
fact-file synchronization engine of the repository:

* `pkm/watch_knowledge.py` — the directory watcher: name normalization
  (`_to_snake_case` / `format`), the fact-store helpers `append_note`,
  `remove_note`, `update_rels`, and the watchdog `Handler` callbacks;
* `pkm/neo4j_to_filesystem_watcher.py` — the reconciler: `_snake`
  (identical to `format`), `_unsnake_to_filename`, `Neo4jWatcher._sync_files`,
  `Neo4jWatcher._sync_facts_pl` and the polling tick `_poll_loop`.

Conventions of the embedding:

* Python strings are modelled over ASCII: the regex class `\W` (non-word)
  is modelled as "not alphanumeric and not an underscore", `[a-z]` as
  `Char.isLower`, `str.lower` as `Char.toLower`, `str.strip()` as removal
  of `Char.isWhitespace` characters at both ends.  All inputs appearing in
  the repository are ASCII.
* A Python function that can raise (indexing an empty string) is modelled
  as returning `Option`; `none` means the call raises.
* File contents are modelled as `List String` (the newline-terminated
  lines, without their terminators) or as one `String` where the source
  manipulates whole contents.
-/

/-- The apostrophe character, used when building fact-file lines. -/
def quoteChar : Char := Char.ofNat 39

/-- One-character string holding an apostrophe. -/
def qS : String := String.mk [quoteChar]

/-! ## Name normalizer (`watch_knowledge._to_snake_case` / `format`,
identical to `neo4j_to_filesystem_watcher._snake`) -/

/-- Python regex word character (`\w`), ASCII fragment: alphanumeric or underscore. -/
def isWordChar (c : Char) : Bool := c.isAlphanum || c == '_'

/-- The scan performed by `re.sub(r"\W+", "_", s)`: each maximal run of
non-word characters is replaced by a single underscore.  The flag records
whether the scanner is currently inside such a run. -/
def subNonWordAux : List Char → Bool → List Char
  | [], _ => []
  | c :: t, inRun =>
    if isWordChar c then c :: subNonWordAux t false
    else if inRun then subNonWordAux t true
    else '_' :: subNonWordAux t true

/-- `re.sub(r"\W+", "_", s)` on a character list. -/
def subNonWord (l : List Char) : List Char := subNonWordAux l false

/-- Python `str.strip("_")`: drop leading and trailing underscores. -/
def stripUnderscores (l : List Char) : List Char :=
  ((l.dropWhile (fun c => c == '_')).reverse.dropWhile (fun c => c == '_')).reverse

/-- `_to_snake_case(s)` from `watch_knowledge.py`:
`re.sub(r"\W+", "_", s).strip("_").lower()`. -/
def toSnakeCase (s : String) : String :=
  String.mk ((stripUnderscores (subNonWord s.data)).map Char.toLower)

/-- `format(name)` from `watch_knowledge.py` (identical to `_snake` in
`neo4j_to_filesystem_watcher.py`): snake-case, then prepend `nn_` unless the
first character matches `[a-z]`.  Indexing `snaked[0]` raises `IndexError`
when the snake-cased string is empty; that case is modelled as `none`. -/
def format (name : String) : Option String :=
  let snaked := toSnakeCase name
  match snaked.data with
  | [] => none
  | c :: _ => some (if c.isLower then snaked else "nn_" ++ snaked)

/-- Modelled from the spec: the normalizer as §4.1 words it — "replace runs
of non-word characters with `_`, strip leading/trailing `_`, lowercase; if
the first character is not an ASCII lowercase letter, prefix `nn_`".  The
run replacement is written as a direct recursion on maximal runs, to be
compared with the scanner `subNonWord` taken from the source. -/
def specCollapseRuns : List Char → List Char
  | [] => []
  | c :: t =>
    if isWordChar c = true then c :: specCollapseRuns t
    else '_' :: specCollapseRuns (t.dropWhile (fun d => !(isWordChar d)))
  termination_by l => l.length
  decreasing_by
    · simp
    · simp only [List.length_cons]
      exact Nat.lt_succ_of_le (List.dropWhile_sublist _ |>.length_le)

/-- Modelled from the spec: full spec-worded normalizer (§4.1). -/
def specNormalize (s : String) : Option String :=
  let snaked := String.mk ((stripUnderscores (specCollapseRuns s.data)).map Char.toLower)
  match snaked.data with
  | [] => none
  | c :: _ => some (if c.isLower then snaked else "nn_" ++ snaked)

/-! ## `pathlib.Path(name).stem` -/

/-- `Path(name).stem` for a bare file name: if the last dot of `name` sits
at an index `i` with `0 < i < len - 1`, the stem is `name[:i]`; otherwise
the stem is `name` itself. -/
def stemData (l : List Char) : List Char :=
  let rsuf := l.reverse.takeWhile (fun c => !(c == '.'))
  if rsuf.length = l.length then l
  else if rsuf.length = 0 then l
  else if l.length - rsuf.length - 1 = 0 then l
  else l.take (l.length - rsuf.length - 1)

/-- `Path(name).stem` on strings. -/
def stem (name : String) : String := String.mk (stemData name.data)

/-! ## Fact-store helpers (`watch_knowledge.py`) -/

/-- Substring test: Python `needle in hay`. -/
def containsSub (needle : List Char) : List Char → Bool
  | [] => needle.isEmpty
  | c :: t => needle.isPrefixOf (c :: t) || containsSub needle t

/-- The `note(...)` line appended by `append_note`:
`f"note({note_name}, 'files/{file_name}')."`. -/
def noteLine (noteName fileName : String) : String :=
  "note(" ++ noteName ++ ", " ++ qS ++ "files/" ++ fileName ++ qS ++ ")."

/-- `remove_note(file_name)`: keep every line not containing the literal
`files/<file_name>` substring. -/
def remove_note (lines : List String) (fileName : String) : List String :=
  lines.filter (fun l => !(containsSub ("files/" ++ fileName).data l.data))

/-- Python `str.strip()` (whitespace at both ends) on a character list. -/
def pyStripL (l : List Char) : List Char :=
  ((l.dropWhile Char.isWhitespace).reverse.dropWhile Char.isWhitespace).reverse

/-- Python `str.strip()` on strings. -/
def pyStrip (s : String) : String := String.mk (pyStripL s.data)

/-! ## Word-boundary token substitution (`update_rels`)

`update_rels` uses the regex `\b<old>\b` where `<old>` is an identifier
produced by `format`, hence a nonempty string of word characters.  For such
patterns a match at a position requires: the preceding character (if any)
is a non-word character, `old` occurs literally there, and the following
character (if any) is a non-word character.  The `Bool` flag carried by the
scanners below records whether the previous character was a word
character (`false` at the start of the string). -/

/-- Boundary after a match: end of string or a non-word character. -/
def boundaryAfter : List Char → Bool
  | [] => true
  | d :: _ => !(isWordChar d)

/-- `\b<old>\b` matches at the head of `s`, given the word-ness of the
previous character. -/
def wbHeadMatch (old : List Char) (prevW : Bool) (s : List Char) : Bool :=
  !prevW && !old.isEmpty && old.isPrefixOf s && boundaryAfter (s.drop old.length)

/-- `re.search(r"\b<old>\b", s)`: some position of `s` matches. -/
def wbOccursAux (old : List Char) : Bool → List Char → Bool
  | _, [] => false
  | prevW, c :: rest => wbHeadMatch old prevW (c :: rest) || wbOccursAux old (isWordChar c) rest

/-- `re.search` on strings (pattern is a word-character identifier). -/
def wbOccurs (old s : String) : Bool := wbOccursAux old.data false s.data

/-- `re.sub(r"\b<old>\b", new, s)`: replace every non-overlapping match,
scanning left to right.  The `Nat` argument counts characters of a match
still to be consumed (the scan resumes after the matched text, with the
previous character being the final — word — character of `old`). -/
def wbSubCore (old new : List Char) : Nat → Bool → List Char → List Char
  | _, _, [] => []
  | k + 1, _, _ :: rest => wbSubCore old new k true rest
  | 0, prevW, c :: rest =>
    if wbHeadMatch old prevW (c :: rest) then
      new ++ wbSubCore old new (old.length - 1) true rest
    else
      c :: wbSubCore old new 0 (isWordChar c) rest

/-- `re.sub(r"\b<old>\b", new, s)` on strings. -/
def wbSub (old new s : String) : String :=
  String.mk (wbSubCore old.data new.data 0 false s.data)

/-- Python `str.startswith` (also used for single prefixes): prefix test
on the character lists. -/
def startsWithL (pre s : String) : Bool := pre.data.isPrefixOf s.data

/-- The per-line action of `update_rels`: rewrite the line when its
stripped form starts with `rel(` and the pattern occurs in the line. -/
def updLine (oldN newN : String) (l : String) : String :=
  if startsWithL "rel(" (pyStrip l) && wbOccurs oldN l then wbSub oldN newN l else l

/-- `update_rels(old_note, new_note)`: rewrite matching `rel(`-lines,
pass every other line through. -/
def update_rels (lines : List String) (oldN newN : String) : List String :=
  lines.map (updLine oldN newN)

/-! ## Watchdog handler (`watch_knowledge.Handler`) -/

/-- `Handler._ignore`: `path.name.startswith(("._", ".DS_Store"))`. -/
def ignoreName (name : String) : Bool :=
  startsWithL "._" name || startsWithL ".DS_Store" name

/-- The relative path recorded in the KnownSet for a file name. -/
def relOf (name : String) : String := "files/" ++ name

/-- Watcher state: the in-memory KnownSet and the fact-file lines. -/
structure WState where
  known : List String
  facts : List String
  deriving DecidableEq

/-- `Handler.on_created` / `Handler._maybe_add` (file events): append a
`note(...)` line unless the path is ignored or already known.  When
`format` raises (`none`), `append_note` aborts before writing, so the
state is unchanged. -/
def on_created (st : WState) (name : String) : WState :=
  if ignoreName name then st
  else if relOf name ∈ st.known then st
  else
    match format (stem name) with
    | none => st
    | some id => ⟨relOf name :: st.known, st.facts ++ [noteLine id name]⟩

/-- `Handler.on_deleted` / `Handler._maybe_remove` (file events). -/
def on_deleted (st : WState) (name : String) : WState :=
  if ignoreName name then st
  else if relOf name ∈ st.known then
    ⟨st.known.erase (relOf name), remove_note st.facts name⟩
  else st

/-- `Handler.on_moved`, the branch where both endpoints are inside the
watched directory: compute both ids (either raising aborts the handler
with no mutation), then `_maybe_remove(src)`, `update_rels`,
`_maybe_add(dst)`. -/
def on_moved_within (st : WState) (srcName dstName : String) : WState :=
  match format (stem srcName), format (stem dstName) with
  | some oldId, some newId =>
    let st1 := on_deleted st srcName
    let st2 : WState := ⟨st1.known, update_rels st1.facts oldId newId⟩
    on_created st2 dstName
  | _, _ => st

/-! ## Reconciler (`neo4j_to_filesystem_watcher.py`)

A node entry is `(id, path)` where `path` is the node's `path` property:
`_query_nodes` always stores the key (possibly Python `None`, modelled as
`none`).  A relationship is a triple `(fromId, toId, relType)`.  The
filesystem is an association list from (ROOT-relative) path to file
content; a present key means the file exists. -/

/-- A Neo4j `(:Note)` node as held in `current_nodes` / `last_nodes`. -/
abbrev NodeEntry := String × Option String

/-- A relationship triple `(from_id, to_id, rel_type)`. -/
abbrev RelTriple := String × String × String

/-- Python truthiness of the stored `path` property (`if not path`). -/
def truthyPath : Option String → Bool
  | none => false
  | some s => !(s == "")

/-- Python `str.capitalize()` (ASCII): first character upper-cased, the
rest lower-cased. -/
def capitalize (s : String) : String :=
  match s.data with
  | [] => ""
  | c :: t => String.mk (c.toUpper :: t.map Char.toLower)

/-- Python `str.isdigit()` (ASCII): nonempty and all digits. -/
def isDigits (s : String) : Bool := !(s == "") && s.data.all Char.isDigit

/-- Python `str.split(sep)` for a one-character separator. -/
def splitOnChar (c : Char) : List Char → List (List Char)
  | [] => [[]]
  | d :: t =>
    match splitOnChar c t with
    | [] => [[]]
    | r :: rs => if d == c then [] :: r :: rs else (d :: r) :: rs

/-- Python `sep.join(parts)`. -/
def joinSep (sep : String) : List String → String
  | [] => ""
  | [x] => x
  | x :: y :: t => x ++ sep ++ joinSep sep (y :: t)

/-- `_unsnake_to_filename(id)` with no `existing_path` (the only call with
a node id in `_sync_files`): strip an `nn_` prefix, split on `_`; three
all-digit parts rejoin with `-`, otherwise capitalize each part and join
with spaces; append the default `.txt` extension. -/
def unsnakeToFilename (id : String) : String :=
  let name := if startsWithL "nn_" id then String.mk (id.data.drop 3) else id
  let parts := (splitOnChar '_' name.data).map String.mk
  let name2 :=
    if parts.length = 3 && parts.all isDigits then joinSep "-" parts
    else joinSep " " (parts.map capitalize)
  name2 ++ ".txt"

/-! ### Filesystem model -/

/-- Filesystem: association list path ↦ content. -/
abbrev FS := List (String × String)

/-- `Path.exists()` — together with lookup of a file's content. -/
def fsLookup (fs : FS) (p : String) : Option String :=
  (fs.find? (fun e => e.1 == p)).map (·.2)

/-- `Path.exists()`. -/
def fsExists (fs : FS) (p : String) : Bool := (fsLookup fs p).isSome

/-- `Path.touch()`: create an empty file (callers only touch missing paths). -/
def fsTouch (fs : FS) (p : String) : FS := fs ++ [(p, "")]

/-- `Path.unlink()`: remove the file at `p`. -/
def fsRemove (fs : FS) (p : String) : FS := fs.filter (fun e => !(e.1 == p))

/-- `Path.rename(dst)`: move the content at `src` to `dst`. -/
def fsRename (fs : FS) (src dst : String) : FS :=
  match fsLookup fs src with
  | none => fs
  | some c => fsRemove fs src ++ [(dst, c)]

/-- Lookup of a node id in a node map (`node_id in previous_nodes` /
`previous_nodes[node_id]`). -/
def nodeLookup (nodes : List NodeEntry) (id : String) : Option (Option String) :=
  (nodes.find? (fun e => e.1 == id)).map (·.2)

/-- The Cypher write `MATCH (n:Note {id: $id}) SET n.path = $path`. -/
def extSetPath (nodes : List NodeEntry) (id p : String) : List NodeEntry :=
  nodes.map (fun e => if e.1 == id then (e.1, some p) else e)

/-- The path used for a node by `_sync_files`: the stored property when
truthy, otherwise the synthesized `files/<unsnaked>` one. -/
def resolvedPath (e : NodeEntry) : String :=
  if truthyPath e.2 then e.2.getD "" else "files/" ++ unsnakeToFilename e.1

/-- One iteration of the per-node loop of `Neo4jWatcher._sync_files`:
resolve the path (synthesizing one and writing it back to the store when
the property is falsy), touch a missing file, then attempt the rename —
the destination was just ensured to exist, so the rename test
`old_file.exists() and not file_path.exists()` can never pass. -/
def procNode (prev : List NodeEntry) (acc : FS × List NodeEntry) (e : NodeEntry) :
    FS × List NodeEntry :=
  let fs := acc.1
  let ext := acc.2
  let path := resolvedPath e
  let ext1 := if truthyPath e.2 then ext else extSetPath ext e.1 path
  let fs1 := if fsExists fs path then fs else fsTouch fs path
  let fs2 :=
    match nodeLookup prev e.1 with
    | none => fs1
    | some oldStored =>
      let oldPath := oldStored.getD ""
      if truthyPath oldStored && !(oldPath == path) then
        if fsExists fs1 oldPath && !(fsExists fs1 path) then fsRename fs1 oldPath path
        else fs1
      else fs1
  (fs2, ext1)

/-- The deletion loop of `Neo4jWatcher._sync_files`: for every id of the
previous snapshot absent from the current one, unlink its (truthy) path. -/
def delNode (current : List NodeEntry) (fs : FS) (e : NodeEntry) : FS :=
  if (nodeLookup current e.1).isSome then fs
  else if truthyPath e.2 then
    if fsExists fs (e.2.getD "") then fsRemove fs (e.2.getD "") else fs
  else fs

/-- `Neo4jWatcher._sync_files(current_nodes, previous_nodes)`: returns the
new filesystem and the (possibly path-augmented) external node map. -/
def sync_files (fs : FS) (ext : List NodeEntry) (current previous : List NodeEntry) :
    FS × List NodeEntry :=
  let r := current.foldl (procNode previous) (fs, ext)
  (previous.foldl (delNode current) r.1, r.2)

/-! ### Fact-file resynthesis (`Neo4jWatcher._sync_facts_pl`) -/

/-- The path written into a `note(...)` fact: `node_data.get("path", ...)`.
`_query_nodes` always stores the `path` key, so the `.get` default is dead;
a stored Python `None` renders as the text `None` in the f-string. -/
def pathRender : Option String → String
  | some p => p
  | none => "None"

/-- `rel_type.lower().replace("_", " ")`. -/
def relLabel (relType : String) : String :=
  String.mk ((relType.data.map Char.toLower).map (fun c => if c == '_' then ' ' else c))

/-- The `note(...)` fact line generated by `_sync_facts_pl`. -/
def noteLineOf (e : NodeEntry) : String :=
  "note(" ++ e.1 ++ ", " ++ qS ++ pathRender e.2 ++ qS ++ ")."

/-- The `rel(...)` fact line generated by `_sync_facts_pl`. -/
def relLineOf (t : RelTriple) : String :=
  "rel(" ++ t.1 ++ ", " ++ t.2.1 ++ ", " ++ qS ++ relLabel t.2.2 ++ qS ++ ")."

/-- Order used by `sorted(current_nodes.items())`: tuple comparison reaches
only the (unique) dictionary keys. -/
def nodeLe (a b : NodeEntry) : Prop := a.1 ≤ b.1

/-- Order used by `sorted(current_rels)`: lexicographic on the triples. -/
def relLe (a b : RelTriple) : Prop :=
  a.1 < b.1 ∨ (a.1 = b.1 ∧ (a.2.1 < b.2.1 ∨ (a.2.1 = b.2.1 ∧ a.2.2 ≤ b.2.2)))

instance : DecidableRel nodeLe := fun a b => by unfold nodeLe; infer_instance

instance : DecidableRel relLe := fun a b => by unfold relLe; infer_instance

/-- `sorted(current_nodes.items())`. -/
def sortNodes (nodes : List NodeEntry) : List NodeEntry := List.insertionSort nodeLe nodes

/-- `sorted(current_rels)`. -/
def sortRels (rels : List RelTriple) : List RelTriple := List.insertionSort relLe rels

/-- The `lines` list built by `_sync_facts_pl`: two directives, a blank,
the sorted `note` facts, a further blank when both collections are
nonempty, then the sorted `rel` facts. -/
def synthLines (nodes : List NodeEntry) (rels : List RelTriple) : List String :=
  ([":- discontiguous note/2.", ":- discontiguous rel/3.", ""]
      ++ (sortNodes nodes).map noteLineOf)
    ++ (if !nodes.isEmpty && !rels.isEmpty then [""] else [])
    ++ (sortRels rels).map relLineOf

/-- `new_content`: `"\n".join(lines) + "\n"` (`lines` is never empty). -/
def synthContent (nodes : List NodeEntry) (rels : List RelTriple) : String :=
  joinSep "\n" (synthLines nodes rels) ++ "\n"

/-- `_sync_facts_pl` applied to the current fact-file content: the pair is
(resulting content, whether a write happened); the file is written exactly
when the stripped contents differ. -/
def sync_facts_pl (current : String) (nodes : List NodeEntry) (rels : List RelTriple) :
    String × Bool :=
  let newContent := synthContent nodes rels
  if pyStrip current = pyStrip newContent then (current, false) else (newContent, true)

/-! ### The polling tick (`Neo4jWatcher._poll_loop`) -/

/-- The world visible to one tick: the external store (nodes and
relationships), the filesystem and the fact file. -/
structure World where
  nodes : List NodeEntry
  rels : List RelTriple
  fs : FS
  facts : String
  deriving DecidableEq

/-- The reconciler's retained `ExternalSnapshot`
(`last_nodes` / `last_rels`). -/
structure RState where
  lastNodes : List NodeEntry
  lastRels : List RelTriple
  deriving DecidableEq

/-- One iteration of `_poll_loop`: query both sets; when both equal the
snapshot do nothing, otherwise sync files (only when the nodes changed),
resynthesize the fact file, and replace the snapshot wholesale. -/
def tick (w : World) (st : RState) : World × RState :=
  let curN := w.nodes
  let curR := w.rels
  if curN = st.lastNodes ∧ curR = st.lastRels then (w, st)
  else
    let fe := if curN ≠ st.lastNodes then sync_files w.fs w.nodes curN st.lastNodes
              else (w.fs, w.nodes)
    let facts1 := (sync_facts_pl w.facts curN curR).1
    (⟨fe.2, curR, fe.1, facts1⟩, ⟨curN, curR⟩)

/-! ## Fact-file grammar (§6)

Recognizers for the three line forms
`note(Id, 'RelativePath').` / `tag(Id, TagAtom).` / `rel(FromId, ToId, 'label text').`
with `Id` matching `[a-z][a-z0-9_]*`.  Only used to state which lines are
"grammatical". -/

/-- Characters allowed in an `Id` after the first: `[a-z0-9_]`. -/
def isIdentChar (c : Char) : Bool := c.isLower || c.isDigit || c == '_'

/-- `Id` grammar: `[a-z][a-z0-9_]*`. -/
def identOk : List Char → Bool
  | [] => false
  | c :: t => c.isLower && t.all isIdentChar

/-- Strip a literal prefix, or fail. -/
def stripPre (pre l : List Char) : Option (List Char) :=
  if pre.isPrefixOf l then some (l.drop pre.length) else none

/-- Consume a leading `Id`, returning the rest. -/
def takeIdent (l : List Char) : Option (List Char) :=
  if identOk (l.takeWhile isIdentChar) then some (l.dropWhile isIdentChar) else none

/-- Consume a leading quoted atom `'...'` (nonempty, no inner quote). -/
def takeQuoted (l : List Char) : Option (List Char) :=
  match stripPre [quoteChar] l with
  | none => none
  | some r =>
    let p := r.takeWhile (fun c => !(c == quoteChar))
    if p.isEmpty then none
    else match stripPre [quoteChar] (r.drop p.length) with
      | none => none
      | some r2 => some r2

/-- `note(Id, 'RelativePath').` -/
def grammarNote (l : List Char) : Bool :=
  (do
    let r1 ← stripPre "note(".data l
    let r2 ← takeIdent r1
    let r3 ← stripPre ", ".data r2
    let r4 ← takeQuoted r3
    if r4 = ").".data then some () else none).isSome

/-- `tag(Id, TagAtom).` -/
def grammarTag (l : List Char) : Bool :=
  (do
    let r1 ← stripPre "tag(".data l
    let r2 ← takeIdent r1
    let r3 ← stripPre ", ".data r2
    let r4 ← takeIdent r3
    if r4 = ").".data then some () else none).isSome

/-- `rel(FromId, ToId, 'label text').` -/
def grammarRel (l : List Char) : Bool :=
  (do
    let r1 ← stripPre "rel(".data l
    let r2 ← takeIdent r1
    let r3 ← stripPre ", ".data r2
    let r4 ← takeIdent r3
    let r5 ← stripPre ", ".data r4
    let r6 ← takeQuoted r5
    if r6 = ").".data then some () else none).isSome

/-- A line matches the fact-file grammar. -/
def matchesGrammar (l : String) : Bool :=
  grammarNote l.data || grammarTag l.data || grammarRel l.data

/-- The line's stripped form starts with `rel(` (the `update_rels` test). -/
def relStartB (l : String) : Bool := startsWithL "rel(" (pyStrip l)

/-- The line's stripped form starts with `note(` — "a `note(...)` line". -/
def noteStartB (l : String) : Bool := startsWithL "note(" (pyStrip l)

/-! # Lemmas and theorems -/

/-! ## Normalizer: the source scanner agrees with the spec's run collapse -/

lemma subNonWordAux_eq_specCollapseRuns (l : List Char) :
    subNonWordAux l false = specCollapseRuns l ∧
      subNonWordAux l true = specCollapseRuns (l.dropWhile (fun d => !(isWordChar d))) := by
  induction l with
  | nil => constructor <;> simp [subNonWordAux, specCollapseRuns]
  | cons c t ih =>
    by_cases hw : isWordChar c = true
    · constructor
      · simp [subNonWordAux, specCollapseRuns, hw, ih.1]
      · simp [subNonWordAux, List.dropWhile_cons, specCollapseRuns, hw, ih.1]
    · simp only [Bool.not_eq_true] at hw
      constructor
      · simp [subNonWordAux, specCollapseRuns, hw, ih.2]
      · simp [subNonWordAux, List.dropWhile_cons, hw, ih.2]

lemma format_eq_specNormalize (s : String) : format s = specNormalize s := by
  unfold format specNormalize toSnakeCase subNonWord
  rw [(subNonWordAux_eq_specCollapseRuns s.data).1]

/-- Claim C6: on every stem on which it returns, `format` (= `_snake`)
computes exactly the spec's pipeline — collapse runs of non-word
characters to `_`, strip edge underscores, lowercase, prefix `nn_` iff the
first character is not an ASCII lowercase letter — and on the two spec
examples it returns `nn_2025_06_30` and `draft_ideas`.  Purity and
determinism hold because `format` is a function of its argument. -/
theorem format_matches_spec_pipeline :
    (∀ s : String, format s = specNormalize s) ∧
      format "2025-06-30" = some "nn_2025_06_30" ∧
      format "Draft Ideas" = some "draft_ideas" :=
  ⟨format_eq_specNormalize, by decide, by decide⟩

/-! ## Normalizer: exact domain of definedness -/

lemma not_underscore_eq_isAlphanum {c : Char} (hw : isWordChar c = true) :
    (!(c == '_')) = c.isAlphanum := by
  unfold isWordChar at hw
  by_cases h : c = '_'
  · subst h; decide
  · have hb : (c == '_') = false := beq_eq_false_iff_ne.mpr h
    simp only [hb, Bool.or_false] at hw
    simp [hb, hw]

lemma subNonWordAux_any_alnum (l : List Char) :
    ∀ b : Bool, (subNonWordAux l b).any (fun c => !(c == '_')) = l.any Char.isAlphanum := by
  induction l with
  | nil => intro b; simp [subNonWordAux]
  | cons c t ih =>
    intro b
    cases hw : isWordChar c with
    | true =>
      simp [subNonWordAux, hw, ih false, not_underscore_eq_isAlphanum hw]
    | false =>
      have ha : c.isAlphanum = false := by
        unfold isWordChar at hw
        exact (Bool.or_eq_false_iff.mp hw).1
      cases b <;> simp [subNonWordAux, hw, ih true, ha]

lemma all_of_dropWhile_all {α : Type} {p : α → Bool} {l : List α}
    (h : ∀ x ∈ l.dropWhile p, p x = true) : ∀ x ∈ l, p x = true := by
  intro x hx
  rw [← List.takeWhile_append_dropWhile (p := p) (l := l)] at hx
  rcases List.mem_append.mp hx with h1 | h2
  · exact List.mem_takeWhile_imp h1
  · exact h x h2

lemma stripUnderscores_eq_nil_iff (l : List Char) :
    stripUnderscores l = [] ↔ ∀ c ∈ l, c = '_' := by
  unfold stripUnderscores
  rw [List.reverse_eq_nil_iff, List.dropWhile_eq_nil_iff]
  constructor
  · intro h
    have h2 : ∀ c ∈ l.dropWhile (fun c => c == '_'), (c == '_') = true := by
      intro c hc
      exact h c (List.mem_reverse.mpr hc)
    intro c hc
    exact beq_iff_eq.mp (all_of_dropWhile_all h2 c hc)
  · intro h c hc
    have : l.dropWhile (fun c => c == '_') = [] :=
      List.dropWhile_eq_nil_iff.mpr (fun x hx => beq_iff_eq.mpr (h x hx))
    rw [this] at hc
    simp at hc

lemma format_isSome_eq (s : String) :
    (format s).isSome = !(stripUnderscores (subNonWord s.data)).isEmpty := by
  unfold format toSnakeCase
  cases stripUnderscores (subNonWord s.data) <;> simp

lemma format_isSome_iff_any_alnum (s : String) :
    (format s).isSome = true ↔ s.data.any Char.isAlphanum = true := by
  rw [format_isSome_eq]
  rw [← subNonWordAux_any_alnum s.data false]
  constructor
  · intro h
    rcases hm : stripUnderscores (subNonWord s.data) with _ | ⟨c, t⟩
    · rw [hm] at h; simp at h
    · have hne : ¬ ∀ c ∈ subNonWord s.data, c = '_' := by
        intro hall
        rw [(stripUnderscores_eq_nil_iff (subNonWord s.data)).mpr hall] at hm
        simp at hm
      rcases not_forall.mp hne with ⟨x, hx⟩
      rcases Classical.not_imp.mp hx with ⟨hmem, hne2⟩
      refine List.any_eq_true.mpr ⟨x, hmem, ?_⟩
      simp [beq_eq_false_iff_ne.mpr hne2]
  · intro h
    rcases List.any_eq_true.mp h with ⟨x, hmem, hx⟩
    have hne2 : x ≠ '_' := by
      intro he; rw [he] at hx; simp at hx
    have : ¬ (stripUnderscores (subNonWord s.data) = []) := by
      intro hnil
      exact hne2 ((stripUnderscores_eq_nil_iff _).mp hnil x hmem)
    cases hm : stripUnderscores (subNonWord s.data)
    · exact absurd hm this
    · simp

/-- Claim C7 (corrected): `format` is not total on non-empty stems — it
returns a value exactly when the stem contains at least one ASCII
alphanumeric character; in every other case, the empty stem included, the
index access `snaked[0]` fails (modelled by `none`). -/
theorem format_defined_iff_has_alnum :
    (∀ s : String, (format s).isSome = true ↔ s.data.any Char.isAlphanum = true) ∧
      format "" = none :=
  ⟨format_isSome_iff_any_alnum, by decide⟩

/-- Claim C7, counterexample to the claim as stated: `"---"` is a
non-empty stem on which `format` does not return (the claim asserts
totality over every non-empty stem). -/
theorem format_total_on_nonempty_counterexample :
    format "---" = none ∧ ¬("---" = "") := by
  constructor <;> decide

/-- Claim C7, witness. -/
theorem format_defined_iff_has_alnum_witness :
    ((format "x").isSome = true ↔ "x".data.any Char.isAlphanum = true) ∧
      (format "x").isSome = true :=
  ⟨format_defined_iff_has_alnum.1 "x", by decide⟩

/-- Claim C9: on every stem consisting only of non-word characters and/or
underscores (equivalently: no ASCII alphanumeric character — e.g. `"---"`),
the snake-cased string is empty and `format` fails on the index access
(modelled by `none`); and `format` returns a value exactly when the stem
contains at least one word character other than underscore, i.e. an
alphanumeric character — not merely when the stem is non-empty. -/
theorem format_partial_on_symbol_stems :
    (∀ s : String, s.data.all (fun c => !c.isAlphanum) = true →
        toSnakeCase s = "" ∧ format s = none) ∧
      (toSnakeCase "---" = "" ∧ format "---" = none) ∧
      (∀ s : String, (format s).isSome = true ↔ s.data.any Char.isAlphanum = true) := by
  refine ⟨?_, by constructor <;> decide, format_isSome_iff_any_alnum⟩
  intro s hall
  have hany : s.data.any Char.isAlphanum = false := by
    cases hy : s.data.any Char.isAlphanum
    · rfl
    · rcases List.any_eq_true.mp hy with ⟨x, hmem, hx⟩
      have := List.all_eq_true.mp hall x hmem
      simp [hx] at this
  have hnone : format s = none := by
    cases hf : format s
    · rfl
    · have : (format s).isSome = true := by rw [hf]; rfl
      rw [format_isSome_iff_any_alnum] at this
      rw [this] at hany; cases hany
  refine ⟨?_, hnone⟩
  have hnil : stripUnderscores (subNonWord s.data) = [] := by
    rcases hm : stripUnderscores (subNonWord s.data) with _ | ⟨c, t⟩
    · rfl
    · have : (format s).isSome = true := by rw [format_isSome_eq, hm]; rfl
      rw [hnone] at this; cases this
  unfold toSnakeCase
  rw [hnil]
  rfl

/-- Claim C9, witness. -/
theorem format_partial_on_symbol_stems_witness :
    ("++_++".data.all (fun c => !c.isAlphanum) = true) ∧
      (toSnakeCase "++_++" = "" ∧ format "++_++" = none) :=
  ⟨by decide, format_partial_on_symbol_stems.1 "++_++" (by decide)⟩

/-! ## The hidden-file filter (C10) -/

/-- Claim C10 (corrected): the watcher's hidden-file filter excludes
exactly the names starting with the literal prefixes `._` or `.DS_Store`;
every other dotfile passes the filter, and an unknown passing file
receives a `note(...)` line on creation *provided its stem normalizes*
(the stem contains an alphanumeric character) — in particular `.hidden`
appends `note(hidden, 'files/.hidden').`.  A passing dotfile whose stem
has no alphanumeric character (e.g. `.-`) makes the normalizer raise
inside `append_note`, so no note line is written (see the
counterexample); the claim's "for every event path" is therefore too
strong. -/
theorem ignore_filter_exact :
    (∀ name : String,
        ignoreName name = (startsWithL "._" name || startsWithL ".DS_Store" name)) ∧
      (∀ (st : WState) (name id : String), ignoreName name = false →
        relOf name ∉ st.known → format (stem name) = some id →
        (on_created st name).facts = st.facts ++ [noteLine id name]) ∧
      (∀ (st : WState) (name : String), format (stem name) = none →
        (on_created st name).facts = st.facts) ∧
      ignoreName ".hidden" = false ∧
      (∀ st : WState, relOf ".hidden" ∉ st.known →
        (on_created st ".hidden").facts = st.facts ++ [noteLine "hidden" ".hidden"]) := by
  have hgen : ∀ (st : WState) (name id : String), ignoreName name = false →
      relOf name ∉ st.known → format (stem name) = some id →
      (on_created st name).facts = st.facts ++ [noteLine id name] := by
    intro st name id h1 h2 h3
    simp [on_created, h1, h2, h3]
  refine ⟨fun name => rfl, hgen, ?_, by decide, ?_⟩
  · intro st name hnone
    unfold on_created
    split
    · rfl
    · split
      · rfl
      · rw [hnone]
  · intro st h
    exact hgen st ".hidden" "hidden" (by decide) h (by decide)

/-- Claim C10, counterexample to the claim as stated: the dotfile `.-`
passes the hidden-file filter, yet its stem has no alphanumeric
character, so `format` raises inside `append_note` and creation writes no
`note(...)` line — not every non-excluded dotfile is treated as a regular
note. -/
theorem ignore_filter_exact_counterexample :
    ignoreName ".-" = false ∧
      relOf ".-" ∉ (WState.mk [] []).known ∧
      format (stem ".-") = none ∧
      (on_created (WState.mk [] []) ".-").facts = [] := by
  refine ⟨by decide, by decide, by decide, by decide⟩

/-- Claim C10, witness. -/
theorem ignore_filter_exact_witness :
    (on_created ⟨["files/a.md"], []⟩ ".hidden").facts
      = ([] : List String) ++ [noteLine "hidden" ".hidden"] :=
  ignore_filter_exact.2.1 ⟨["files/a.md"], []⟩ ".hidden" "hidden"
    (by decide) (by decide) (by decide)

/-! ## The reconciler's rename is unreachable (C2) -/

lemma fsExists_append_self (fs : FS) (p c : String) : fsExists (fs ++ [(p, c)]) p = true := by
  induction fs with
  | nil => simp [fsExists, fsLookup]
  | cons e t ih =>
    by_cases he : (e.1 == p) = true
    · simp [fsExists, fsLookup, List.find?_cons, he]
    · simp only [List.cons_append, fsExists, fsLookup, List.find?_cons, he]
      exact ih

lemma procNode_fs_eq (prev : List NodeEntry) (acc : FS × List NodeEntry) (e : NodeEntry) :
    (procNode prev acc e).1 =
      if fsExists acc.1 (resolvedPath e) then acc.1 else fsTouch acc.1 (resolvedPath e) := by
  unfold procNode
  by_cases hex : fsExists acc.1 (resolvedPath e) = true
  · cases hnl : nodeLookup prev e.1 with
    | none => simp [hnl, hex]
    | some oldStored =>
      simp only [hnl, hex, if_true]
      split
      · simp [hex]
      · rfl
  · have hex' : fsExists acc.1 (resolvedPath e) = false := by
      cases hq : fsExists acc.1 (resolvedPath e)
      · rfl
      · exact absurd hq hex
    cases hnl : nodeLookup prev e.1 with
    | none => simp [hnl, hex']
    | some oldStored =>
      simp only [hnl, hex', Bool.false_eq_true, if_false]
      split
      · simp [fsTouch, fsExists_append_self]
      · rfl

/-- Claim C2 (code bug): `_sync_files` touches a missing destination
before testing the rename guard `old_file.exists() and not
file_path.exists()`, so the rename can never execute: the filesystem
result of each per-node step is exactly the input filesystem plus, when
the node's path was absent, a fresh empty placeholder.  At the failing
input — node `n1` previously at `files/Old.txt` (holding "hello"), now at
`files/New.txt` — the old file persists and the new path receives an empty
placeholder instead of the renamed file. -/
theorem sync_files_rename_unreachable :
    (∀ (prev : List NodeEntry) (acc : FS × List NodeEntry) (e : NodeEntry),
        (procNode prev acc e).1 =
          if fsExists acc.1 (resolvedPath e) then acc.1 else fsTouch acc.1 (resolvedPath e)) ∧
      (sync_files [("files/Old.txt", "hello")] [("n1", some "files/New.txt")]
          [("n1", some "files/New.txt")] [("n1", some "files/Old.txt")]).1
        = [("files/Old.txt", "hello"), ("files/New.txt", "")] :=
  ⟨procNode_fs_eq, by decide⟩

/-! ## Reconciler tick: no-op on identical snapshot, steady state (C8) -/

lemma procNode_ext_of_truthy (prev : List NodeEntry) (acc : FS × List NodeEntry)
    (e : NodeEntry) (h : truthyPath e.2 = true) : (procNode prev acc e).2 = acc.2 := by
  unfold procNode
  simp [h]

lemma foldl_procNode_ext (prev : List NodeEntry) :
    ∀ (cur : List NodeEntry) (acc : FS × List NodeEntry),
      (∀ e ∈ cur, truthyPath e.2 = true) → (cur.foldl (procNode prev) acc).2 = acc.2 := by
  intro cur
  induction cur with
  | nil => intro acc _; rfl
  | cons e t ih =>
    intro acc h
    rw [List.foldl_cons,
      ih (procNode prev acc e) (fun x hx => h x (List.mem_cons_of_mem _ hx))]
    exact procNode_ext_of_truthy prev acc e (h e (List.mem_cons_self _ _))

lemma sync_files_ext_of_truthy (fs : FS) (ext : List NodeEntry) (cur prev : List NodeEntry)
    (h : ∀ e ∈ cur, truthyPath e.2 = true) : (sync_files fs ext cur prev).2 = ext :=
  foldl_procNode_ext prev cur (fs, ext) h

lemma tick_of_eq (w : World) (st : RState) (h1 : w.nodes = st.lastNodes)
    (h2 : w.rels = st.lastRels) : tick w st = (w, st) := by
  simp [tick, h1, h2]

/-- Claim C8: if the node map and relationship set queried on a tick both
equal the retained snapshot, the tick mutates nothing (world returned
unchanged: no filesystem, fact-file or external-store write); and once the
external state stops changing — in particular when every node already
carries a truthy `path`, so the tick writes nothing back to the store — a
second tick after a completed one is a no-op (idempotent steady state). -/
theorem tick_noop_and_steady :
    (∀ (w : World) (st : RState),
        w.nodes = st.lastNodes → w.rels = st.lastRels → tick w st = (w, st)) ∧
      (∀ (w : World) (st : RState), (∀ e ∈ w.nodes, truthyPath e.2 = true) →
        tick (tick w st).1 (tick w st).2 = tick w st) := by
  refine ⟨tick_of_eq, ?_⟩
  intro w st htr
  by_cases hc : w.nodes = st.lastNodes ∧ w.rels = st.lastRels
  · rw [tick_of_eq w st hc.1 hc.2]
    exact tick_of_eq w st hc.1 hc.2
  · have h1 : (tick w st).2 = ⟨w.nodes, w.rels⟩ := by
      simp [tick, hc]
    have h2 : (tick w st).1.nodes = w.nodes := by
      simp only [tick, if_neg hc]
      by_cases hn : w.nodes = st.lastNodes
      · simp [hn]
      · simp [hn, sync_files_ext_of_truthy _ _ _ _ htr]
    have h3 : (tick w st).1.rels = w.rels := by
      simp [tick, hc]
    refine tick_of_eq _ _ ?_ ?_
    · rw [h2, h1]
    · rw [h3, h1]

/-- Claim C8, witness: a world whose snapshot matches is left untouched,
and the tick from a stale snapshot is idempotent. -/
theorem tick_noop_and_steady_witness :
    tick ⟨[("a", some "files/A.txt")], [], [("files/A.txt", "x")], "c"⟩
        ⟨[("a", some "files/A.txt")], []⟩
      = (⟨[("a", some "files/A.txt")], [], [("files/A.txt", "x")], "c"⟩,
          ⟨[("a", some "files/A.txt")], []⟩) ∧
      tick (tick ⟨[("a", some "files/A.txt")], [], [], ""⟩ ⟨[], []⟩).1
          (tick ⟨[("a", some "files/A.txt")], [], [], ""⟩ ⟨[], []⟩).2
        = tick ⟨[("a", some "files/A.txt")], [], [], ""⟩ ⟨[], []⟩ :=
  ⟨tick_noop_and_steady.1 _ _ rfl rfl,
    tick_noop_and_steady.2 ⟨[("a", some "files/A.txt")], [], [], ""⟩ ⟨[], []⟩ (by decide)⟩

/-! ## Create/delete round trip (C4) -/

/-- The `note(...)` lines of a fact file ("the set of note lines"). -/
def notesOf (lines : List String) : List String := lines.filter noteStartB

lemma containsSub_of_isPrefixOf {needle hay : List Char}
    (h : needle.isPrefixOf hay = true) : containsSub needle hay = true := by
  cases hay with
  | nil =>
    cases needle with
    | nil => rfl
    | cons c t => simp [List.isPrefixOf] at h
  | cons c t => simp [containsSub, h]

lemma containsSub_cons {needle t : List Char} (c : Char)
    (h : containsSub needle t = true) : containsSub needle (c :: t) = true := by
  simp [containsSub, h]

lemma containsSub_append_left {needle u : List Char} (v : List Char)
    (h : containsSub needle u = true) : containsSub needle (v ++ u) = true := by
  induction v with
  | nil => exact h
  | cons c t ih => exact containsSub_cons c ih

lemma containsSub_middle (needle v post : List Char) :
    containsSub needle (v ++ (needle ++ post)) = true :=
  containsSub_append_left v
    (containsSub_of_isPrefixOf (List.isPrefixOf_iff_prefix.mpr (List.prefix_append _ _)))

lemma containsSub_noteLine (id name : String) :
    containsSub ("files/" ++ name).data (noteLine id name).data = true := by
  have hd : (noteLine id name).data
      = ("note(" ++ id ++ ", " ++ qS).data
          ++ (("files/" ++ name).data ++ (qS ++ ").").data) := by
    simp [noteLine, String.data_append, List.append_assoc]
  rw [hd]
  exact containsSub_middle _ _ _

lemma remove_note_append_noteLine (facts : List String) (id name : String) :
    remove_note (facts ++ [noteLine id name]) name = remove_note facts name := by
  unfold remove_note
  rw [List.filter_append]
  have h1 : List.filter (fun l => !(containsSub ("files/" ++ name).data l.data))
      [noteLine id name] = [] := by
    rw [List.filter_cons, containsSub_noteLine id name]
    rfl
  rw [h1, List.append_nil]

lemma notesOf_remove_note (facts : List String) (name : String)
    (h : ∀ l ∈ facts, noteStartB l = true →
      containsSub ("files/" ++ name).data l.data = false) :
    notesOf (remove_note facts name) = notesOf facts := by
  unfold notesOf remove_note
  rw [List.filter_filter]
  refine List.filter_congr ?_
  intro l hl
  show (noteStartB l && !(containsSub ("files/" ++ name).data l.data)) = noteStartB l
  cases hn : noteStartB l with
  | true => rw [h l hl hn]; rfl
  | false => rfl

/-- Claim C4 (corrected): for every path not in the KnownSet *whose literal
`files/<name>` text does not already occur in some `note(...)` line*,
handling `Created(path)` then `Deleted(path)` restores the fact file's
note-line set.  (Without the extra proviso the claim fails: `remove_note`
deletes by substring, see the counterexample.) -/
theorem create_delete_roundtrip (st : WState) (name : String)
    (hclean : ∀ l ∈ st.facts, noteStartB l = true →
      containsSub ("files/" ++ name).data l.data = false)
    (hknown : relOf name ∉ st.known) :
    notesOf (on_deleted (on_created st name) name).facts = notesOf st.facts := by
  by_cases hig : ignoreName name = true
  · simp [on_created, on_deleted, hig]
  · have hig' : ignoreName name = false := by
      cases h : ignoreName name
      · rfl
      · exact absurd h hig
    rcases hf : format (stem name) with _ | id
    · simp [on_created, on_deleted, hig', hf, hknown]
    · have hcre : on_created st name
          = ⟨relOf name :: st.known, st.facts ++ [noteLine id name]⟩ := by
        simp [on_created, hig', hf, hknown]
      rw [hcre]
      have hmem : relOf name ∈ relOf name :: st.known := List.mem_cons_self _ _
      simp only [on_deleted, hig', Bool.false_eq_true, if_false, hmem, if_pos]
      rw [remove_note_append_noteLine]
      exact notesOf_remove_note st.facts name hclean

/-- Claim C4, counterexample to the claim as stated: with KnownSet empty
and the fact file already holding the (unknown-to-the-watcher) line
`note(c, 'files/C.md').`, creating then deleting `C.md` erases that
pre-existing note line — `remove_note` removes every line containing the
literal path substring. -/
theorem create_delete_roundtrip_counterexample :
    (("note(c, " ++ qS ++ "files/C.md" ++ qS ++ ").")
        ∈ notesOf (WState.mk [] ["note(c, " ++ qS ++ "files/C.md" ++ qS ++ ")."]).facts) ∧
      relOf "C.md" ∉ (WState.mk [] ["note(c, " ++ qS ++ "files/C.md" ++ qS ++ ")."]).known ∧
      (("note(c, " ++ qS ++ "files/C.md" ++ qS ++ ").")
        ∉ notesOf (on_deleted
            (on_created (WState.mk [] ["note(c, " ++ qS ++ "files/C.md" ++ qS ++ ")."]) "C.md")
            "C.md").facts) := by
  refine ⟨by decide, by decide, by decide⟩

/-- Claim C4, witness. -/
theorem create_delete_roundtrip_witness :
    notesOf (on_deleted
        (on_created (WState.mk [] ["rel(x, y, " ++ qS ++ "cites" ++ qS ++ ")."]) "New.md")
        "New.md").facts
      = notesOf ["rel(x, y, " ++ qS ++ "cites" ++ qS ++ ")."] :=
  create_delete_roundtrip ⟨[], ["rel(x, y, " ++ qS ++ "cites" ++ qS ++ ")."]⟩ "New.md"
    (by decide) (by decide)

/-! ## Non-grammar lines under the watcher path (C5) -/

/-- Claim C5 (corrected): a fact-file line that does not match the
note/tag/rel grammar is left byte-for-byte in place by the watcher's
create path (which only ever appends after the existing lines); by the
delete path *provided it does not contain the literal removed-path
substring*; and by the rename reference-rewrite *provided its stripped
form does not start with `rel(`* — while the reconciler's resynthesis
builds every output line itself (directive, blank, generated `note` fact
or generated `rel` fact), so unrecognized lines never survive a rewrite.
As stated the claim is false: `remove_note` filters by substring and
`update_rels` rewrites by the `rel(`-prefix test, with no grammar check
(see the counterexample). -/
theorem nongrammar_lines_inert :
    (∀ (st : WState) (name : String),
        (on_created st name).facts.take st.facts.length = st.facts) ∧
      (∀ (st : WState) (name : String) (l : String), matchesGrammar l = false →
        containsSub ("files/" ++ name).data l.data = false →
        l ∈ st.facts → l ∈ (on_deleted st name).facts) ∧
      (∀ (oldN newN l : String), matchesGrammar l = false → relStartB l = false →
        updLine oldN newN l = l) ∧
      (∀ (nodes : List NodeEntry) (rels : List RelTriple) (l : String),
        l ∈ synthLines nodes rels →
        l = ":- discontiguous note/2." ∨ l = ":- discontiguous rel/3." ∨ l = ""
          ∨ (∃ e ∈ sortNodes nodes, l = noteLineOf e)
          ∨ (∃ t ∈ sortRels rels, l = relLineOf t)) := by
  refine ⟨?_, ?_, ?_, ?_⟩
  · intro st name
    unfold on_created
    split
    · exact List.take_length st.facts
    · split
      · exact List.take_length st.facts
      · rcases format (stem name) with _ | id
        · exact List.take_length st.facts
        · exact List.take_left st.facts _
  · intro st name l _ hfree hmem
    unfold on_deleted
    split
    · exact hmem
    · split
      · show l ∈ remove_note st.facts name
        unfold remove_note
        refine List.mem_filter.mpr ⟨hmem, ?_⟩
        rw [hfree]
        rfl
      · exact hmem
  · intro oldN newN l _ hrel
    unfold updLine
    have hc : startsWithL "rel(" (pyStrip l) = false := hrel
    rw [hc]
    rfl
  · intro nodes rels l hmem
    unfold synthLines at hmem
    rcases List.mem_append.mp hmem with h1 | h2
    · rcases List.mem_append.mp h1 with h3 | h4
      · rcases List.mem_append.mp h3 with h5 | h6
        · simp only [List.mem_cons, List.not_mem_nil, or_false] at h5
          rcases h5 with h | h | h
          · exact Or.inl h
          · exact Or.inr (Or.inl h)
          · exact Or.inr (Or.inr (Or.inl h))
        · rcases List.mem_map.mp h6 with ⟨e, he, hl⟩
          exact Or.inr (Or.inr (Or.inr (Or.inl ⟨e, he, hl.symm⟩)))
      · split at h4
        · simp only [List.mem_cons, List.not_mem_nil, or_false] at h4
          exact Or.inr (Or.inr (Or.inl h4))
        · cases h4
    · rcases List.mem_map.mp h2 with ⟨t, ht, hl⟩
      exact Or.inr (Or.inr (Or.inr (Or.inr ⟨t, ht, hl.symm⟩)))

/-- Claim C5, counterexample to the claim as stated: `junk files/X.md`
matches no grammar rule, yet the watcher's delete path removes it. -/
theorem nongrammar_lines_inert_counterexample :
    matchesGrammar "junk files/X.md" = false ∧
      ("junk files/X.md" ∈ (WState.mk ["files/X.md"] ["junk files/X.md"]).facts) ∧
      ("junk files/X.md"
        ∉ (on_deleted (WState.mk ["files/X.md"] ["junk files/X.md"]) "X.md").facts) := by
  refine ⟨by decide, by decide, by decide⟩

/-- Claim C5, witness. -/
theorem nongrammar_lines_inert_witness :
    updLine "a" "b" "junk line" = "junk line" :=
  nongrammar_lines_inert.2.2.1 "a" "b" "junk line" (by decide) (by decide)

/-! ## Resynthesis determinism (C3) -/

instance : IsTotal NodeEntry nodeLe := ⟨fun a b => le_total a.1 b.1⟩

instance : IsTrans NodeEntry nodeLe := ⟨fun _ _ _ hab hbc => le_trans hab hbc⟩

instance : IsTotal RelTriple relLe := ⟨by
  intro a b
  unfold relLe
  rcases lt_trichotomy a.1 b.1 with h | h | h
  · exact Or.inl (Or.inl h)
  · rcases lt_trichotomy a.2.1 b.2.1 with h2 | h2 | h2
    · exact Or.inl (Or.inr ⟨h, Or.inl h2⟩)
    · rcases le_total a.2.2 b.2.2 with h3 | h3
      · exact Or.inl (Or.inr ⟨h, Or.inr ⟨h2, h3⟩⟩)
      · exact Or.inr (Or.inr ⟨h.symm, Or.inr ⟨h2.symm, h3⟩⟩)
    · exact Or.inr (Or.inr ⟨h.symm, Or.inl h2⟩)
  · exact Or.inr (Or.inl h)⟩

instance : IsTrans RelTriple relLe := ⟨by
  intro a b c hab hbc
  unfold relLe at hab hbc ⊢
  rcases hab with h1 | ⟨e1, h1⟩
  · rcases hbc with h2 | ⟨e2, _⟩
    · exact Or.inl (h1.trans h2)
    · exact Or.inl (lt_of_lt_of_le h1 (le_of_eq e2))
  · rcases hbc with h2 | ⟨e2, h2⟩
    · exact Or.inl (lt_of_le_of_lt (le_of_eq e1) h2)
    · refine Or.inr ⟨e1.trans e2, ?_⟩
      rcases h1 with g1 | ⟨f1, g1⟩
      · rcases h2 with g2 | ⟨f2, _⟩
        · exact Or.inl (g1.trans g2)
        · exact Or.inl (lt_of_lt_of_le g1 (le_of_eq f2))
      · rcases h2 with g2 | ⟨f2, g2⟩
        · exact Or.inl (lt_of_le_of_lt (le_of_eq f1) g2)
        · exact Or.inr ⟨f1.trans f2, g1.trans g2⟩⟩

instance : IsAntisymm RelTriple relLe := ⟨by
  rintro ⟨a1, a2, a3⟩ ⟨b1, b2, b3⟩ hab hba
  unfold relLe at hab hba
  simp only at hab hba
  rcases hab with h1 | ⟨e1, h1⟩
  · rcases hba with h2 | ⟨e2, _⟩
    · exact absurd h2 (lt_asymm h1)
    · exact absurd h1 (by rw [e2]; exact lt_irrefl _)
  · rcases hba with h2 | ⟨e2, h2⟩
    · exact absurd h2 (by rw [e1]; exact lt_irrefl _)
    · rcases h1 with g1 | ⟨f1, g1⟩
      · rcases h2 with g2 | ⟨f2, _⟩
        · exact absurd g2 (lt_asymm g1)
        · exact absurd g1 (by rw [f2]; exact lt_irrefl _)
      · rcases h2 with g2 | ⟨f2, g2⟩
        · exact absurd g2 (by rw [f1]; exact lt_irrefl _)
        · rw [e1, f1, le_antisymm g1 g2]⟩

lemma eq_of_perm_of_key_sorted :
    ∀ (l₁ l₂ : List NodeEntry), l₁.Perm l₂ → l₁.Pairwise nodeLe → l₂.Pairwise nodeLe →
      (l₁.map Prod.fst).Nodup → l₁ = l₂ := by
  intro l₁
  induction l₁ with
  | nil => exact fun l₂ hp _ _ _ => hp.nil_eq
  | cons a t ih =>
    intro l₂ hp hs₁ hs₂ hnd
    cases l₂ with
    | nil => exact absurd hp.eq_nil (by simp)
    | cons b t₂ =>
      by_cases hab : a = b
      · subst hab
        have ht : t = t₂ := by
          refine ih t₂ hp.cons_inv (List.Pairwise.of_cons hs₁) (List.Pairwise.of_cons hs₂) ?_
          rw [List.map_cons] at hnd
          exact (List.nodup_cons.mp hnd).2
        rw [ht]
      · exfalso
        have hamem : a ∈ b :: t₂ := hp.subset (List.mem_cons_self a t)
        have hbmem : b ∈ a :: t := hp.symm.subset (List.mem_cons_self b t₂)
        have ha2 : a ∈ t₂ := by
          rcases List.mem_cons.mp hamem with h | h
          · exact absurd h hab
          · exact h
        have hb2 : b ∈ t := by
          rcases List.mem_cons.mp hbmem with h | h
          · exact absurd h.symm hab
          · exact h
        have h1 : nodeLe a b := (List.pairwise_cons.mp hs₁).1 b hb2
        have h2 : nodeLe b a := (List.pairwise_cons.mp hs₂).1 a ha2
        have hkey : a.1 = b.1 := le_antisymm h1 h2
        rw [List.map_cons] at hnd
        exact (List.nodup_cons.mp hnd).1 (hkey ▸ List.mem_map_of_mem Prod.fst hb2)

lemma sortNodes_perm_eq (n₁ n₂ : List NodeEntry) (hperm : n₁.Perm n₂)
    (hnd : (n₁.map Prod.fst).Nodup) : sortNodes n₁ = sortNodes n₂ := by
  refine eq_of_perm_of_key_sorted _ _ ?_ ?_ ?_ ?_
  · exact (List.perm_insertionSort _ n₁).trans (hperm.trans (List.perm_insertionSort _ n₂).symm)
  · exact List.sorted_insertionSort _ n₁
  · exact List.sorted_insertionSort _ n₂
  · exact (((List.perm_insertionSort nodeLe n₁).map Prod.fst).nodup_iff).mpr hnd

lemma sortRels_perm_eq (r₁ r₂ : List RelTriple) (hperm : r₁.Perm r₂) :
    sortRels r₁ = sortRels r₂ :=
  List.eq_of_perm_of_sorted
    ((List.perm_insertionSort _ r₁).trans (hperm.trans (List.perm_insertionSort _ r₂).symm))
    (List.sorted_insertionSort _ r₁) (List.sorted_insertionSort _ r₂)

lemma isEmpty_of_perm {α : Type} {l₁ l₂ : List α} (h : l₁.Perm l₂) :
    l₁.isEmpty = l₂.isEmpty := by
  cases l₁ with
  | nil => rw [← h.nil_eq]
  | cons a t =>
    cases l₂ with
    | nil => exact absurd h.eq_nil (by simp)
    | cons b t₂ => rfl

/-- Claim C3: resynthesis is deterministic over the logical snapshot —
permuting the queried node map (unique ids) or relationship set leaves the
generated content byte-identical; in the content, note facts are sorted by
node id and relationship facts lexicographically by `(fromId, toId, type)`;
and the file is (re)written exactly when the whitespace-stripped new
content differs from the stripped current content, the content being left
untouched otherwise. -/
theorem resynthesis_deterministic :
    (∀ (n₁ n₂ : List NodeEntry) (r₁ r₂ : List RelTriple),
        n₁.Perm n₂ → r₁.Perm r₂ → (n₁.map Prod.fst).Nodup →
        synthContent n₁ r₁ = synthContent n₂ r₂) ∧
      (∀ (nodes : List NodeEntry) (rels : List RelTriple),
        (sortNodes nodes).Pairwise nodeLe ∧ (sortRels rels).Pairwise relLe) ∧
      (∀ (cur : String) (nodes : List NodeEntry) (rels : List RelTriple),
        ((sync_facts_pl cur nodes rels).2 = true ↔
          ¬(pyStrip cur = pyStrip (synthContent nodes rels))) ∧
        ((sync_facts_pl cur nodes rels).2 = false →
          (sync_facts_pl cur nodes rels).1 = cur)) := by
  refine ⟨?_, ?_, ?_⟩
  · intro n₁ n₂ r₁ r₂ hn hr hnd
    unfold synthContent synthLines
    rw [sortNodes_perm_eq n₁ n₂ hn hnd, sortRels_perm_eq r₁ r₂ hr,
      isEmpty_of_perm hn, isEmpty_of_perm hr]
  · exact fun nodes rels =>
      ⟨List.sorted_insertionSort nodeLe nodes, List.sorted_insertionSort relLe rels⟩
  · intro cur nodes rels
    unfold sync_facts_pl
    by_cases h : pyStrip cur = pyStrip (synthContent nodes rels)
    · rw [if_pos h]
      exact ⟨by simp [h], fun _ => rfl⟩
    · rw [if_neg h]
      exact ⟨by simp [h], fun hfalse => by cases hfalse⟩

/-- Claim C3, witness: permuting a two-node, two-relationship snapshot
leaves the generated content identical. -/
theorem resynthesis_deterministic_witness :
    synthContent [("b", some "files/B.txt"), ("a", none)]
        [("b", "a", "REL_TWO"), ("a", "b", "REL_ONE")]
      = synthContent [("a", none), ("b", some "files/B.txt")]
        [("a", "b", "REL_ONE"), ("b", "a", "REL_TWO")] :=
  resynthesis_deterministic.1 _ _ _ _ (by decide) (by decide) (by decide)

/-! ## Rename integrity (C1)

`update_rels` is only ever invoked with identifiers produced by `format`;
for the claim's concrete rename `A.md → B.md` these are the single-letter
ids `a` and `b`.  The lemmas below analyse `\b`-substitution for a
single-character word pattern. -/

lemma wbSubCore_single_cons_ne {o n c : Char} (hco : (o == c) = false)
    (prev : Bool) (rest : List Char) :
    wbSubCore [o] [n] 0 prev (c :: rest)
      = c :: wbSubCore [o] [n] 0 (isWordChar c) rest := by
  have hm : wbHeadMatch [o] prev (c :: rest) = false := by
    unfold wbHeadMatch
    simp [List.isPrefixOf, hco]
  simp [wbSubCore, hm]

lemma wbOccursAux_sub_single {o n : Char} (hwo : isWordChar o = true)
    (hwn : isWordChar n = true) (hne : (o == n) = false) :
    ∀ (s : List Char) (prev : Bool),
      wbOccursAux [o] prev (wbSubCore [o] [n] 0 prev s) = false := by
  intro s
  induction s with
  | nil => intro prev; simp [wbSubCore, wbOccursAux]
  | cons c rest ih =>
    intro prev
    cases hm : wbHeadMatch [o] prev (c :: rest) with
    | true =>
      have hsub : wbSubCore [o] [n] 0 prev (c :: rest)
          = n :: wbSubCore [o] [n] 0 true rest := by
        simp [wbSubCore, hm]
      rw [hsub]
      have hm2 : wbHeadMatch [o] prev (n :: wbSubCore [o] [n] 0 true rest) = false := by
        unfold wbHeadMatch
        simp [List.isPrefixOf, hne]
      simp [wbOccursAux, hm2, hwn, ih true]
    | false =>
      have hsub : wbSubCore [o] [n] 0 prev (c :: rest)
          = c :: wbSubCore [o] [n] 0 (isWordChar c) rest := by
        simp [wbSubCore, hm]
      rw [hsub]
      have hm2 : wbHeadMatch [o] prev
          (c :: wbSubCore [o] [n] 0 (isWordChar c) rest) = false := by
        cases hoc : (o == c) with
        | false =>
          unfold wbHeadMatch
          simp [List.isPrefixOf, hoc]
        | true =>
          have hc : c = o := (beq_iff_eq.mp hoc).symm
          cases hp : prev with
          | true => unfold wbHeadMatch; simp [hp]
          | false =>
            cases rest with
            | nil =>
              exfalso
              unfold wbHeadMatch at hm
              simp [hp, List.isPrefixOf, hoc, boundaryAfter] at hm
            | cons d rest2 =>
              have hd : isWordChar d = true := by
                unfold wbHeadMatch at hm
                simp [hp, List.isPrefixOf, hoc, boundaryAfter] at hm
                exact hm
              have hwc : isWordChar c = true := by rw [hc]; exact hwo
              have hx : wbSubCore [o] [n] 0 (isWordChar c) (d :: rest2)
                  = d :: wbSubCore [o] [n] 0 (isWordChar d) rest2 := by
                have hm3 : wbHeadMatch [o] (isWordChar c) (d :: rest2) = false := by
                  unfold wbHeadMatch
                  simp [hwc]
                simp [wbSubCore, hm3]
              rw [hx]
              unfold wbHeadMatch boundaryAfter
              simp [hd]
      simp [wbOccursAux, hm2, ih (isWordChar c)]

lemma dropWhile_append_cons_false {α : Type} (p : α → Bool) {c : α} (hc : p c = false)
    (u v : List α) : (u ++ c :: v).dropWhile p = u.dropWhile p ++ c :: v := by
  induction u with
  | nil => simp [List.dropWhile_cons, hc]
  | cons d u' ih =>
    cases hd : p d with
    | true => simp [List.dropWhile_cons, hd, ih]
    | false => simp [List.dropWhile_cons, hd]

lemma pyStripL_rel_prefix (x : List Char) :
    ∃ y, pyStripL ('r' :: 'e' :: 'l' :: '(' :: x) = 'r' :: 'e' :: 'l' :: '(' :: y := by
  unfold pyStripL
  have h1 : ('r' :: 'e' :: 'l' :: '(' :: x).dropWhile Char.isWhitespace
      = 'r' :: 'e' :: 'l' :: '(' :: x := by
    rw [List.dropWhile_cons]
    simp
  rw [h1]
  have h2 : ('r' :: 'e' :: 'l' :: '(' :: x).reverse
      = x.reverse ++ '(' :: 'l' :: 'e' :: 'r' :: [] := by
    simp
  rw [h2, dropWhile_append_cons_false Char.isWhitespace (by decide) x.reverse
    ('l' :: 'e' :: 'r' :: [])]
  refine ⟨(x.reverse.dropWhile Char.isWhitespace).reverse, ?_⟩
  simp

lemma relStartB_of_data_prefix {l : String}
    (h : List.isPrefixOf "rel(".data l.data = true) : relStartB l = true := by
  obtain ⟨y, hy⟩ := List.isPrefixOf_iff_prefix.mp h
  unfold relStartB startsWithL pyStrip
  show List.isPrefixOf "rel(".data (pyStripL l.data) = true
  rw [← hy]
  have hform : ("rel(".data ++ y) = 'r' :: 'e' :: 'l' :: '(' :: y := rfl
  rw [hform]
  obtain ⟨z, hz⟩ := pyStripL_rel_prefix y
  rw [hz]
  exact List.isPrefixOf_iff_prefix.mpr ⟨z, rfl⟩

lemma noteStartB_false_of_rel {l : String} (h : relStartB l = true) :
    noteStartB l = false := by
  unfold relStartB startsWithL at h
  unfold noteStartB startsWithL
  obtain ⟨y, hy⟩ := List.isPrefixOf_iff_prefix.mp h
  show List.isPrefixOf "note(".data (pyStrip l).data = false
  rw [← hy]
  have hform : ("rel(".data ++ y) = 'r' :: 'e' :: 'l' :: '(' :: y := rfl
  rw [hform]
  simp [List.isPrefixOf]

lemma wbSubCore_ab_rel_prefix (y : List Char) :
    wbSubCore ['a'] ['b'] 0 false ('r' :: 'e' :: 'l' :: '(' :: y)
      = 'r' :: 'e' :: 'l' :: '(' :: wbSubCore ['a'] ['b'] 0 false y := by
  rw [wbSubCore_single_cons_ne (show (('a' : Char) == 'r') = false by decide) false]
  rw [wbSubCore_single_cons_ne (show (('a' : Char) == 'e') = false by decide) (isWordChar 'r')]
  rw [wbSubCore_single_cons_ne (show (('a' : Char) == 'l') = false by decide) (isWordChar 'e')]
  rw [wbSubCore_single_cons_ne (show (('a' : Char) == '(') = false by decide) (isWordChar 'l')]
  rw [show isWordChar '(' = false from by decide]

lemma updLine_ab {l : String} (h : List.isPrefixOf "rel(".data l.data = true) :
    List.isPrefixOf "rel(".data (updLine "a" "b" l).data = true ∧
      wbOccurs "a" (updLine "a" "b" l) = false := by
  have hrs : relStartB l = true := relStartB_of_data_prefix h
  unfold updLine
  cases hw : wbOccurs "a" l with
  | false =>
    simp only [Bool.and_false, Bool.false_eq_true, if_false]
    exact ⟨h, hw⟩
  | true =>
    have hrs' : startsWithL "rel(" (pyStrip l) = true := hrs
    simp only [Bool.and_true, hrs', if_true]
    obtain ⟨y, hy⟩ := List.isPrefixOf_iff_prefix.mp h
    constructor
    · show List.isPrefixOf "rel(".data (wbSub "a" "b" l).data = true
      unfold wbSub
      show List.isPrefixOf "rel(".data (wbSubCore "a".data "b".data 0 false l.data) = true
      have ha : "a".data = ['a'] := rfl
      have hb : "b".data = ['b'] := rfl
      rw [ha, hb, ← hy]
      have hform : ("rel(".data ++ y) = 'r' :: 'e' :: 'l' :: '(' :: y := rfl
      rw [hform, wbSubCore_ab_rel_prefix]
      exact List.isPrefixOf_iff_prefix.mpr ⟨_, rfl⟩
    · unfold wbOccurs wbSub
      show wbOccursAux "a".data false
          (wbSubCore "a".data "b".data 0 false l.data) = false
      have ha : "a".data = ['a'] := rfl
      have hb : "b".data = ['b'] := rfl
      rw [ha, hb]
      exact wbOccursAux_sub_single (by decide) (by decide) (by decide) l.data false

lemma on_moved_AB (known : List String) (pre post : List String)
    (hfree : ∀ l ∈ pre ++ post, containsSub ("files/" ++ "A.md").data l.data = false)
    (hA : "files/A.md" ∈ known) (hB : "files/B.md" ∉ known) :
    (on_moved_within ⟨known, pre ++ [noteLine "a" "A.md"] ++ post⟩ "A.md" "B.md").facts
      = (pre ++ post).map (updLine "a" "b") ++ [noteLine "b" "B.md"] := by
  have hfa : format (stem "A.md") = some "a" := by decide
  have hfb : format (stem "B.md") = some "b" := by decide
  have higA : ignoreName "A.md" = false := by decide
  have higB : ignoreName "B.md" = false := by decide
  have hrem : remove_note (pre ++ [noteLine "a" "A.md"] ++ post) "A.md" = pre ++ post := by
    unfold remove_note
    rw [List.filter_append, List.filter_append]
    have h1 : pre.filter (fun l => !(containsSub ("files/" ++ "A.md").data l.data)) = pre := by
      refine List.filter_eq_self.mpr ?_
      intro l hl
      rw [hfree l (List.mem_append_left _ hl)]
      rfl
    have h2 : post.filter (fun l => !(containsSub ("files/" ++ "A.md").data l.data)) = post := by
      refine List.filter_eq_self.mpr ?_
      intro l hl
      rw [hfree l (List.mem_append_right _ hl)]
      rfl
    have h3 : [noteLine "a" "A.md"].filter
        (fun l => !(containsSub ("files/" ++ "A.md").data l.data)) = [] := by
      decide
    rw [h1, h2, h3, List.append_nil]
  have hdel : on_deleted ⟨known, pre ++ [noteLine "a" "A.md"] ++ post⟩ "A.md"
      = ⟨known.erase (relOf "A.md"), pre ++ post⟩ := by
    unfold on_deleted
    rw [higA]
    simp only [Bool.false_eq_true, if_false]
    have hA' : relOf "A.md" ∈ known := hA
    rw [if_pos hA', hrem]
  have hb2 : relOf "B.md" ∉ known.erase (relOf "A.md") := by
    intro hmem
    exact hB (List.mem_of_mem_erase hmem)
  unfold on_moved_within
  rw [hfa, hfb]
  simp only [hdel]
  unfold on_created
  rw [higB]
  simp only [Bool.false_eq_true, if_false]
  rw [if_neg hb2, hfb]
  rfl

/-- Claim C1 (corrected): for a rename `A.md → B.md` with both endpoints
in the watched directory, over a fact file holding one note line for
`files/A.md` plus any rel lines *that do not themselves contain the
literal text `files/A.md`* (KnownSet holding `files/A.md` but not
`files/B.md`): afterwards no `rel(...)` line contains the token
`a = normalize("A")`, exactly one `note(...)` line contains the token
`b = normalize("B")`, and the number of `rel(...)` lines is unchanged.
Without the italicised proviso the claim is false — `FactStore.remove(src)`
deletes by literal substring, see the counterexample. -/
theorem rename_integrity (known pre post : List String)
    (hrel : ∀ l ∈ pre ++ post, List.isPrefixOf "rel(".data l.data = true)
    (hfree : ∀ l ∈ pre ++ post, containsSub ("files/" ++ "A.md").data l.data = false)
    (hA : "files/A.md" ∈ known) (hB : "files/B.md" ∉ known) :
    (∀ l ∈ (on_moved_within ⟨known, pre ++ [noteLine "a" "A.md"] ++ post⟩
        "A.md" "B.md").facts, relStartB l = true → wbOccurs "a" l = false) ∧
      ((on_moved_within ⟨known, pre ++ [noteLine "a" "A.md"] ++ post⟩
          "A.md" "B.md").facts.filter
        (fun l => noteStartB l && wbOccurs "b" l)).length = 1 ∧
      ((on_moved_within ⟨known, pre ++ [noteLine "a" "A.md"] ++ post⟩
          "A.md" "B.md").facts.filter relStartB).length
        = ((pre ++ [noteLine "a" "A.md"] ++ post).filter relStartB).length := by
  rw [on_moved_AB known pre post hfree hA hB]
  refine ⟨?_, ?_, ?_⟩
  · intro l hl _
    rcases List.mem_append.mp hl with hm | hm
    · obtain ⟨l₀, hl₀, hle⟩ := List.mem_map.mp hm
      rw [← hle]
      exact (updLine_ab (hrel l₀ hl₀)).2
    · have : l = noteLine "b" "B.md" := by
        rcases List.mem_cons.mp hm with h | h
        · exact h
        · cases h
      rw [this]
      decide
  · rw [List.filter_append]
    have h1 : ((pre ++ post).map (updLine "a" "b")).filter
        (fun l => noteStartB l && wbOccurs "b" l) = [] := by
      refine List.filter_eq_nil_iff.mpr ?_
      intro l hl
      obtain ⟨l₀, hl₀, hle⟩ := List.mem_map.mp hl
      have hrs : relStartB l = true := by
        rw [← hle]
        exact relStartB_of_data_prefix (updLine_ab (hrel l₀ hl₀)).1
      rw [noteStartB_false_of_rel hrs]
      simp
    have h2 : [noteLine "b" "B.md"].filter
        (fun l => noteStartB l && wbOccurs "b" l) = [noteLine "b" "B.md"] := by
      decide
    rw [h1, h2]
    rfl
  · rw [List.filter_append]
    have h1 : ((pre ++ post).map (updLine "a" "b")).filter relStartB
        = (pre ++ post).map (updLine "a" "b") := by
      refine List.filter_eq_self.mpr ?_
      intro l hl
      obtain ⟨l₀, hl₀, hle⟩ := List.mem_map.mp hl
      rw [← hle]
      exact relStartB_of_data_prefix (updLine_ab (hrel l₀ hl₀)).1
    have h2 : [noteLine "b" "B.md"].filter relStartB = [] := by decide
    rw [h1, h2, List.append_nil, List.length_map]
    rw [List.filter_append, List.filter_append]
    have h3 : pre.filter relStartB = pre :=
      List.filter_eq_self.mpr fun l hl =>
        relStartB_of_data_prefix (hrel l (List.mem_append_left _ hl))
    have h4 : post.filter relStartB = post :=
      List.filter_eq_self.mpr fun l hl =>
        relStartB_of_data_prefix (hrel l (List.mem_append_right _ hl))
    have h5 : [noteLine "a" "A.md"].filter relStartB = [] := by decide
    rw [h3, h4, h5, List.append_nil]

/-- Claim C1, counterexample to the claim as stated: a legal rel line
whose free-text label contains the literal text `files/A.md` is deleted by
the rename's `remove(src)` step (substring removal), so the total
rel-line count drops from 1 to 0. -/
theorem rename_integrity_counterexample :
    ((on_moved_within
        ⟨["files/A.md"],
          [noteLine "a" "A.md", "rel(x, y, " ++ qS ++ "files/A.md" ++ qS ++ ")."]⟩
        "A.md" "B.md").facts.filter relStartB).length = 0 ∧
      ([noteLine "a" "A.md",
          "rel(x, y, " ++ qS ++ "files/A.md" ++ qS ++ ")."].filter relStartB).length = 1 := by
  refine ⟨by decide, by decide⟩

/-- Claim C1, witness. -/
theorem rename_integrity_witness :
    ((on_moved_within
        ⟨["files/A.md"],
          ["rel(a, x, " ++ qS ++ "cites" ++ qS ++ ")."] ++ [noteLine "a" "A.md"]
            ++ ["rel(y, a, " ++ qS ++ "refs" ++ qS ++ ")."]⟩
        "A.md" "B.md").facts.filter (fun l => noteStartB l && wbOccurs "b" l)).length = 1 :=
  (rename_integrity ["files/A.md"]
      ["rel(a, x, " ++ qS ++ "cites" ++ qS ++ ")."]
      ["rel(y, a, " ++ qS ++ "refs" ++ qS ++ ")."]
      (by decide) (by decide) (by decide) (by decide)).2.1
